import Mathlib

/-!
Shallow embedding of the core of `pping` (a concurrent ICMP echo prober
written in Go) together with proofs about its correlation loop, scheduler,
sender and receive loop.

Modelling conventions:

* Go `int`/`int64` values (target ids, sequence numbers) are modelled as
  `Int`; every value the program ever produces for them fits comfortably in
  64 bits (ids come from a 16-bit ICMP identifier field or a bounded loop
  counter), so two's-complement wrap-around never occurs in the modelled
  range and is not modelled.
* `time.Time`/`time.Duration` values are modelled as `Int` nanosecond
  readings/differences.  `time.Time.Sub` saturates at ±(2^63 - 1) ns, which
  is outside any reachable range here, so subtraction is plain `Int`
  subtraction.
* A Go `map[int]time.Time` is modelled as an association list where
  insertion overwrites any previous binding of the key, exactly like a Go
  map assignment.
* A Go slice indexing operation `s[i]` panics when `i < 0 ∨ i ≥ len(s)`;
  this is modelled with `Except RtError`, `.error .indexOutOfRange`
  standing for the runtime panic.
* Channel receives in the main `select` loop are modelled as a list of
  `Event`s processed in order by the loop body; each `Event.request`
  carries the `time.Now()` reading the loop takes when it processes that
  notice, and each `Event.result` carries the `endTime` reading the
  listener took when the datagram was read.
-/

namespace PPing

/-- Go runtime faults that the modelled code can hit (slice index panics). -/
inductive RtError
  | indexOutOfRange
  deriving DecidableEq, Repr

/-- One cell of a row of the `results` jagged array of `main` (pping.go line
110-113): each row starts with the url and address label strings and then
holds one cell per matched sample.  The source stores the sample formatted
as a fixed-precision decimal-millisecond string; the model keeps the raw
nanosecond duration, which the CSV layer would format — no counted or
compared property depends on the formatting. -/
inductive Cell
  | label (s : String)
  | sample (durNs : Int)
  deriving DecidableEq, Repr

/-- Model of a Go `map[int]time.Time`: association list from sequence
number to the stored send timestamp. -/
abbrev TimeMap := List (Int × Int)

/-- Lookup of `requests[id][seq]` (the comma-ok read of a Go map). -/
def mapLookup : TimeMap → Int → Option Int
  | [], _ => none
  | (k, v) :: rest, key => if k = key then some v else mapLookup rest key

/-- Go map assignment `m[k] = v`: overwrites any previous binding of `k`. -/
def mapInsert (m : TimeMap) (k v : Int) : TimeMap :=
  (k, v) :: m.filter (fun p => p.1 != k)

/-- Go `delete(m, k)`: removes the binding of `k` if present. -/
def mapErase (m : TimeMap) (k : Int) : TimeMap :=
  m.filter (fun p => p.1 != k)

/-- Go slice read `l[i]` with an `int` index: panics (models as
`.error .indexOutOfRange`) unless `0 ≤ i < len l`. -/
def sliceGet {α : Type} (l : List α) (i : Int) : Except RtError α :=
  if 0 ≤ i then
    match l.get? i.toNat with
    | some a => .ok a
    | none => .error .indexOutOfRange
  else .error .indexOutOfRange

/-- Go slice write `l[i] = a`: panics unless `0 ≤ i < len l`. -/
def sliceSet {α : Type} (l : List α) (i : Int) (a : α) : Except RtError (List α) :=
  if 0 ≤ i ∧ i.toNat < l.length then .ok (l.set i.toNat a) else .error .indexOutOfRange

/-- One event received by the `select` loop of `main` (pping.go lines
144-199): a new-pending notice from a `Ping` goroutine (`requestReceiver`),
a parsed reply from the listener (`resultReceiver`), or a probe failure
(`errorReceiver`).  `request` carries the `time.Now()` value the loop reads
when storing the notice; `result` carries the listener's arrival timestamp. -/
inductive Event
  | request (id seq now : Int)
  | result (id seq endTime : Int)
  | error (id seq : Int)
  deriving DecidableEq, Repr

/-- Observable outcome the loop body produces for one event: a matched
sample with its computed duration, the "Received invalid id." report, the
"Response received without a corresponding request." report, or the
"Failed to ping IP" report of an error event. -/
inductive Outcome
  | matched (id seq dur : Int)
  | invalidId (id : Int)
  | unsolicited (id seq : Int)
  | failed (id seq : Int)
  deriving DecidableEq, Repr

/-- State owned by the correlation loop of `main` in pping.go: the number of
live targets (`ipCount`), the pending-request table (`requests`, one map per
target) and the per-target result rows (`results`). -/
structure CorrState where
  ipCount : Nat
  requests : List TimeMap
  results : List (List Cell)
  deriving DecidableEq, Repr

/-- One iteration of the `select` loop of `main` in pping.go (lines
144-199) on one incoming event.

* `request`: `requests[req.id][req.seq] = time.Now()` (lines 146-147) —
  note the source indexes `requests[req.id]` with no bounds check.
* `result`: reject when `res.id >= ipCount` (lines 149-152); otherwise read
  `requests[res.id][res.seq]` — an index that panics when `res.id < 0` —
  report an unsolicited reply when the comma-ok read misses (lines
  154-159), else delete the entry, compute `dur := res.endTime.Sub(start)`
  and append the sample to `results[res.id]` (lines 160-168).
* `error`: `if e.id < ipCount { delete(requests[e.id], e.seq) }` — the
  guard does not exclude negative ids — then report the failure (lines
  169-175). -/
def stepPing (st : CorrState) : Event → Except RtError (CorrState × List Outcome)
  | .request id seq now => do
      let m ← sliceGet st.requests id
      let requests' ← sliceSet st.requests id (mapInsert m seq now)
      pure ({ st with requests := requests' }, [])
  | .result id seq endTime =>
      if (st.ipCount : Int) ≤ id then
        pure (st, [.invalidId id])
      else do
        let m ← sliceGet st.requests id
        match mapLookup m seq with
        | none => pure (st, [.unsolicited id seq])
        | some start => do
            let requests' ← sliceSet st.requests id (mapErase m seq)
            let dur := endTime - start
            let row ← sliceGet st.results id
            let results' ← sliceSet st.results id (row ++ [.sample dur])
            pure ({ st with requests := requests', results := results' }, [.matched id seq dur])
  | .error id seq =>
      if id < (st.ipCount : Int) then do
        let m ← sliceGet st.requests id
        let requests' ← sliceSet st.requests id (mapErase m seq)
        pure ({ st with requests := requests' }, [.failed id seq])
      else
        pure (st, [.failed id seq])

/-- The state `main` builds before entering the loop (pping.go lines
98-113): one empty pending map per resolved target and one result row per
target holding the url and address labels.  `targets` lists the
`(matchedUrls[i], ipAddrs[i].String())` pairs. -/
def initState (targets : List (String × String)) : CorrState :=
  { ipCount := targets.length
  , requests := targets.map (fun _ => [])
  , results := targets.map (fun p => [.label p.1, .label p.2]) }

/-- Run of the correlation loop over a list of incoming events. -/
def runPing (st : CorrState) : List Event → Except RtError CorrState
  | [] => .ok st
  | e :: es => do
      let (st', _) ← stepPing st e
      runPing st' es

/-- Run of the correlation loop that also collects the emitted outcomes in
processing order. -/
def runPingOut (st : CorrState) : List Event → Except RtError (CorrState × List Outcome)
  | [] => .ok (st, [])
  | e :: es => do
      let (st', out) ← stepPing st e
      let (st'', outs) ← runPingOut st' es
      pure (st'', out ++ outs)

/-- The quit branch of the loop (pping.go lines 176-197): the reported
total is the sum of the lengths of the result rows, and the rows written to
the CSV writer are exactly those same rows. -/
def quitReport (st : CorrState) : Nat × List (List Cell) :=
  ((st.results.map List.length).sum, st.results)

/-- Whether a cell is a matched latency sample (rather than a url/address
label). -/
def Cell.isSample : Cell → Bool
  | .sample _ => true
  | .label _ => false

/-- Number of matched latency samples held in the result rows. -/
def sampleCount (results : List (List Cell)) : Nat :=
  (results.map (fun r => (r.filter Cell.isSample).length)).sum

/-! ### The statistics-tracking variant of the correlation loop

The repository also contains a variant of `main` (src/unnamed/part_000)
whose loop additionally maintains the per-target aggregates
`mins`/`maxs`/`tots`/`cnts` and checks both bounds of incoming ids. -/

/-- State of the part_000 variant of the loop: the pending table and result
rows as above plus per-target running min, max, total and count (part_000
lines 133-152). -/
structure StatState where
  ipCount : Nat
  requests : List TimeMap
  results : List (List Cell)
  mins : List Int
  maxs : List Int
  tots : List Int
  cnts : List Int
  deriving DecidableEq, Repr

/-- One iteration of the `select` loop of part_000's `main` (lines 188-268).

* `request` (lines 190-191): identical to pping.go — unchecked index.
* `result` (lines 192-237): reject when `res.id < 0 || res.id >= ipCount`;
  report an unsolicited reply when the pending map misses; otherwise delete
  the entry, append the sample, and update `mins`/`maxs`/`tots`/`cnts`
  (the periodic status printing at lines 224-237 reads but does not change
  the state and is not modelled).
* `error` (lines 238-243): delete the pending entry only when
  `e.id >= 0 && e.id < ipCount`, then report the failure. -/
def step000 (st : StatState) : Event → Except RtError (StatState × List Outcome)
  | .request id seq now => do
      let m ← sliceGet st.requests id
      let requests' ← sliceSet st.requests id (mapInsert m seq now)
      pure ({ st with requests := requests' }, [])
  | .result id seq endTime =>
      if id < 0 ∨ (st.ipCount : Int) ≤ id then
        pure (st, [.invalidId id])
      else do
        let m ← sliceGet st.requests id
        match mapLookup m seq with
        | none => pure (st, [.unsolicited id seq])
        | some start => do
            let requests' ← sliceSet st.requests id (mapErase m seq)
            let dur := endTime - start
            let row ← sliceGet st.results id
            let results' ← sliceSet st.results id (row ++ [.sample dur])
            let mn ← sliceGet st.mins id
            let mins' ← sliceSet st.mins id (if dur < mn then dur else mn)
            let mx ← sliceGet st.maxs id
            let maxs' ← sliceSet st.maxs id (if mx < dur then dur else mx)
            let tot ← sliceGet st.tots id
            let tots' ← sliceSet st.tots id (tot + dur)
            let cnt ← sliceGet st.cnts id
            let cnts' ← sliceSet st.cnts id (cnt + 1)
            let st' : StatState :=
              { st with
                requests := requests'
                results := results'
                mins := mins'
                maxs := maxs'
                tots := tots'
                cnts := cnts' }
            pure (st', [.matched id seq dur])
  | .error id seq =>
      if 0 ≤ id ∧ id < (st.ipCount : Int) then do
        let m ← sliceGet st.requests id
        let requests' ← sliceSet st.requests id (mapErase m seq)
        pure ({ st with requests := requests' }, [.failed id seq])
      else
        pure (st, [.failed id seq])

/-- The state part_000's `main` builds before entering its loop (lines
133-152): empty pending maps, label-initialised rows, `mins[i] = 2^63 - 1`,
`maxs[i] = -2^63`, zero totals and counts. -/
def init000 (targets : List (String × String)) : StatState :=
  { ipCount := targets.length
  , requests := targets.map (fun _ => [])
  , results := targets.map (fun p => [.label p.1, .label p.2])
  , mins := targets.map (fun _ => 2 ^ 63 - 1)
  , maxs := targets.map (fun _ => -(2 ^ 63))
  , tots := targets.map (fun _ => 0)
  , cnts := targets.map (fun _ => 0) }

/-! ### The listener receive loop -/

/-- Body of a parsed ICMP message as seen by the receive loop of
listener.go: either an `*icmp.Echo` body carrying the identifier and
sequence, or some other body shape. -/
inductive Body
  | echo (id seq : Int)
  | other
  deriving DecidableEq, Repr

/-- One iteration's worth of input to the receive loop: either
`c.ReadFrom` fails, or a datagram is read whose arrival time is recorded
first and whose bytes then either fail `icmp.ParseMessage` (`none`) or
parse to a message with the given ICMP type and body.  Type `0` is
`ipv4.ICMPTypeEchoReply`. -/
inductive Inbound
  | readErr
  | dgram (endTime : Int) (parsed : Option (Int × Body))
  deriving DecidableEq, Repr

/-- Observable action of the receive loop: a reply event sent to the
results channel, or one of its stderr log lines. -/
inductive LEvent
  | emit (id seq endTime : Int)
  | logReadErr
  | logParseErr
  | logNonEcho (t : Int)
  deriving DecidableEq, Repr

/-- The receive loop of `Listener` (listener.go lines 26-56) over a
sequence of inbound read outcomes.  A read error is logged and the loop
returns (lines 27-31); a datagram whose bytes fail `icmp.ParseMessage` is
logged and the loop likewise returns (lines 34-38); a parsed echo reply
with an `*icmp.Echo` body is emitted to the results channel, an echo reply
with any other body shape falls to an empty `default:` branch (lines
39-46), any other ICMP type is logged (lines 47-48); in the latter three
cases the loop continues with the next datagram.  The end-of-iteration
`select` on `quit` (lines 51-55) is not modelled: no quit signal occurs in
the modelled inputs. -/
def Listener : List Inbound → List LEvent
  | [] => []
  | .readErr :: _ => [.logReadErr]
  | .dgram _ none :: _ => [.logParseErr]
  | .dgram endTime (some (t, body)) :: rest =>
      (if t = 0 then
        match body with
        | .echo id seq => [.emit id seq endTime]
        | .other => []
      else [.logNonEcho t]) ++ Listener rest

/-! ### The probe sender -/

/-- Observable action of one `Ping` goroutine: the new-request notice sent
on the requests channel, the `conn.WriteTo` of the marshalled bytes, or an
error notice sent on the errors channel. -/
inductive PingAction
  | notifyRequest (id seq : Int)
  | wireSend (id seq : Int)
  | notifyError (id seq : Int)
  deriving DecidableEq, Repr

/-- Action trace of `Ping` (pinger.go lines 16-46).  `marshal` is the
outcome of `m.Marshal(nil)` (`some len` giving the byte length, `none` an
error); `writeTo` is the outcome of `conn.WriteTo` (`some n` bytes
written, `none` an error).  A marshal failure sends only an error notice
(lines 30-33); otherwise the request notice is sent (line 36), then the
wire send happens (line 37), then a write error or short write sends an
error notice (lines 38-45). -/
def Ping (id seq : Int) (marshal : Option Nat) (writeTo : Option Nat) : List PingAction :=
  match marshal with
  | none => [.notifyError id seq]
  | some len =>
      .notifyRequest id seq :: .wireSend id seq ::
        (match writeTo with
         | none => [.notifyError id seq]
         | some n => if n ≠ len then [.notifyError id seq] else [])

/-! ### The round-robin scheduler -/

/-- The `(id, seq)` pairs dispatched by the loop of `Pinger` (pinger.go
lines 48-72) over its next `steps` iterations starting from sweep index
`i`: each iteration dispatches `id = i % l`, `seq = i / l` and increments
`i`.  The Go counter is an `int64` starting at 0 and only incremented, so
`Nat` arithmetic coincides with it on the modelled range. -/
def Pinger (n : Nat) : Nat → Nat → List (Nat × Nat)
  | _, 0 => []
  | i, steps + 1 => (i % n, i / n) :: Pinger n (i + 1) steps

/-! ### Derived notions used in the statements -/

/-- The binding a pending-request table holds for the key `(id, seq)`:
the read `requests[id][seq]`, returning `none` when the row index is out
of range. -/
def tableLookup (tbl : List TimeMap) (id seq : Int) : Option Int :=
  if 0 ≤ id then (tbl.get? id.toNat).bind (fun m => mapLookup m seq) else none

/-- The pending binding of `(id, seq)` in the pping.go loop state. -/
def lookupState (st : CorrState) (id seq : Int) : Option Int :=
  tableLookup st.requests id seq

/-- The pending binding of `(id, seq)` in the part_000 loop state. -/
def lookup000 (st : StatState) (id seq : Int) : Option Int :=
  tableLookup st.requests id seq

/-- The event is the new-pending notice for the key `(id, seq)`. -/
def insertsKey (e : Event) (id seq : Int) : Prop :=
  ∃ now, e = .request id seq now

/-- The event references the key `(id, seq)` (as a notice, a reply or a
failure). -/
def bearsKey (e : Event) (id seq : Int) : Prop :=
  (∃ now, e = .request id seq now) ∨ (∃ t, e = .result id seq t) ∨ e = .error id seq

/-- Declarative reading of "a pending entry for `(id, seq)` was inserted
and not subsequently resolved": the trace contains a new-pending notice for
the key after which no reply or failure event references the key. -/
def pendingChar (es : List Event) (id seq : Int) : Prop :=
  ∃ es₁ e es₂, es = es₁ ++ e :: es₂ ∧ insertsKey e id seq ∧
    ∀ e' ∈ es₂, ¬ bearsKey e' id seq

/-- All send timestamps stored in the pending table of `st` are at most
`t`. -/
def timesLE (st : CorrState) (t : Int) : Prop :=
  ∀ m ∈ st.requests, ∀ p ∈ m, p.2 ≤ t

end PPing

/-! ## Helper lemmas -/

namespace PPing

theorem bindOk {α β : Type} {x : Except RtError α} {f : α → Except RtError β} {b : β} :
    (x >>= f) = Except.ok b ↔ ∃ a, x = Except.ok a ∧ f a = Except.ok b := by
  cases x <;> simp [Bind.bind, Except.bind]

theorem pureOk {β : Type} {a b : β} :
    (pure a : Except RtError β) = Except.ok b ↔ a = b := by
  simp [pure, Except.pure]

theorem sliceGet_ok {α : Type} {l : List α} {i : Int} {a : α} :
    sliceGet l i = .ok a ↔ 0 ≤ i ∧ l.get? i.toNat = some a := by
  unfold sliceGet
  by_cases h0 : 0 ≤ i
  · cases hg : l.get? i.toNat <;> simp [h0, hg]
  · simp [h0]

theorem sliceSet_ok {α : Type} {l : List α} {i : Int} {a : α} {r : List α} :
    sliceSet l i a = .ok r ↔ (0 ≤ i ∧ i.toNat < l.length) ∧ r = l.set i.toNat a := by
  unfold sliceSet
  by_cases h : 0 ≤ i ∧ i.toNat < l.length
  · simp [h, eq_comm]
  · simp [h]

theorem mapLookup_filter_ne {m : TimeMap} {k k' : Int} (h : k ≠ k') :
    mapLookup (m.filter (fun p => p.1 != k)) k' = mapLookup m k' := by
  induction m with
  | nil => rfl
  | cons p rest ih =>
      by_cases hp : p.1 = k
      · have : (p.1 != k) = false := by simp [hp]
        simp [List.filter, this, mapLookup, hp, h, ih]
      · have : (p.1 != k) = true := by simp [hp]
        by_cases hk' : p.1 = k'
        · have hkk : (k' != k) = true := by simp [Ne.symm h]
          simp [List.filter, this, mapLookup, hk', hkk]
        · simp [List.filter, this, mapLookup, hk', ih]

theorem mapLookup_insert_self {m : TimeMap} {k v : Int} :
    mapLookup (mapInsert m k v) k = some v := by
  simp [mapInsert, mapLookup]

theorem mapLookup_insert_ne {m : TimeMap} {k v k' : Int} (h : k ≠ k') :
    mapLookup (mapInsert m k v) k' = mapLookup m k' := by
  simp only [mapInsert, mapLookup, if_neg h]
  exact mapLookup_filter_ne h

theorem mapLookup_erase_self {m : TimeMap} {k : Int} :
    mapLookup (mapErase m k) k = none := by
  induction m with
  | nil => rfl
  | cons p rest ih =>
      by_cases hp : p.1 = k
      · have : (p.1 != k) = false := by simp [hp]
        simp [mapErase, List.filter, this] at ih ⊢
        exact ih
      · have : (p.1 != k) = true := by simp [hp]
        simp [mapErase, List.filter, this, mapLookup, hp] at ih ⊢
        exact ih

theorem mapLookup_erase_ne {m : TimeMap} {k k' : Int} (h : k ≠ k') :
    mapLookup (mapErase m k) k' = mapLookup m k' :=
  mapLookup_filter_ne h

theorem keys_nodup_filter {m : TimeMap} {p : Int × Int → Bool}
    (h : (m.map Prod.fst).Nodup) : ((m.filter p).map Prod.fst).Nodup :=
  ((m.filter_sublist).map Prod.fst).nodup h

theorem keys_nodup_insert {m : TimeMap} {k v : Int}
    (h : (m.map Prod.fst).Nodup) : ((mapInsert m k v).map Prod.fst).Nodup := by
  simp only [mapInsert, List.map_cons]
  refine List.nodup_cons.mpr ⟨?_, keys_nodup_filter h⟩
  intro hk
  obtain ⟨q, hq, hq1⟩ := List.mem_map.mp hk
  obtain ⟨-, hq2⟩ := List.mem_filter.mp hq
  rw [hq1] at hq2
  simp at hq2

theorem keys_nodup_erase {m : TimeMap} {k : Int}
    (h : (m.map Prod.fst).Nodup) : ((mapErase m k).map Prod.fst).Nodup :=
  keys_nodup_filter h

theorem okBind {α β : Type} {a : α} {f : α → Except RtError β} :
    (Except.ok a >>= f) = f a := rfl

theorem get?_some_lt {α : Type} {l : List α} {n : Nat} {a : α}
    (h : l.get? n = some a) : n < l.length := by
  by_contra hh
  rw [List.get?_eq_none.mpr (le_of_not_lt hh)] at h
  exact Option.noConfusion h

/-- Canonical form of a successful loop iteration on a new-pending notice
(pping.go lines 146-147): the id was a valid index and the notice was
stored, overwriting any previous binding of the key. -/
theorem stepPing_request_ok {st st' : CorrState} {out : List Outcome} {id seq now : Int}
    (h : stepPing st (.request id seq now) = .ok (st', out)) :
    ∃ m, 0 ≤ id ∧ st.requests.get? id.toNat = some m ∧
      st' = { st with requests := st.requests.set id.toNat (mapInsert m seq now) } ∧
      out = [] := by
  simp only [stepPing] at h
  rw [bindOk] at h
  obtain ⟨m, hm, h⟩ := h
  rw [bindOk] at h
  obtain ⟨r, hr, h⟩ := h
  rw [pureOk, Prod.ext_iff] at h
  obtain ⟨h0, hget⟩ := sliceGet_ok.mp hm
  obtain ⟨-, rfl⟩ := sliceSet_ok.mp hr
  exact ⟨m, h0, hget, h.1.symm, h.2.symm⟩

/-- Canonical form of a successful loop iteration on a reply event
(pping.go lines 148-168): either the id fails the `res.id >= ipCount`
check, or the pending map misses (unsolicited), or the entry is removed and
the sample recorded. -/
theorem stepPing_result_ok {st st' : CorrState} {out : List Outcome} {id seq t : Int}
    (h : stepPing st (.result id seq t) = .ok (st', out)) :
    ((st.ipCount : Int) ≤ id ∧ st' = st ∧ out = [.invalidId id]) ∨
    (0 ≤ id ∧ id < (st.ipCount : Int) ∧ ∃ m, st.requests.get? id.toNat = some m ∧
      ((mapLookup m seq = none ∧ st' = st ∧ out = [.unsolicited id seq]) ∨
       (∃ start row, mapLookup m seq = some start ∧
         st.results.get? id.toNat = some row ∧
         st' = { st with
                 requests := st.requests.set id.toNat (mapErase m seq)
                 results := st.results.set id.toNat (row ++ [.sample (t - start)]) } ∧
         out = [.matched id seq (t - start)]))) := by
  simp only [stepPing] at h
  by_cases hle : (st.ipCount : Int) ≤ id
  · rw [if_pos hle, pureOk, Prod.ext_iff] at h
    exact .inl ⟨hle, h.1.symm, h.2.symm⟩
  · rw [if_neg hle] at h
    rw [bindOk] at h
    obtain ⟨m, hm, h⟩ := h
    obtain ⟨h0, hget⟩ := sliceGet_ok.mp hm
    refine .inr ⟨h0, not_le.mp hle, m, hget, ?_⟩
    cases hlk : mapLookup m seq with
    | none =>
        rw [hlk, pureOk, Prod.ext_iff] at h
        exact .inl ⟨rfl, h.1.symm, h.2.symm⟩
    | some start =>
        rw [hlk] at h
        rw [bindOk] at h
        obtain ⟨r, hr, h⟩ := h
        rw [bindOk] at h
        obtain ⟨row, hrow, h⟩ := h
        rw [bindOk] at h
        obtain ⟨r2, hr2, h⟩ := h
        rw [pureOk, Prod.ext_iff] at h
        obtain ⟨-, rfl⟩ := sliceSet_ok.mp hr
        obtain ⟨-, hrowget⟩ := sliceGet_ok.mp hrow
        obtain ⟨-, rfl⟩ := sliceSet_ok.mp hr2
        exact .inr ⟨start, row, rfl, hrowget, h.1.symm, h.2.symm⟩

/-- Canonical form of a successful loop iteration on a failure event
(pping.go lines 169-175): the `e.id < ipCount` guard either admits the id
(which a successful run forces to be non-negative) and clears the entry, or
the event is only reported. -/
theorem stepPing_error_ok {st st' : CorrState} {out : List Outcome} {id seq : Int}
    (h : stepPing st (.error id seq) = .ok (st', out)) :
    (0 ≤ id ∧ id < (st.ipCount : Int) ∧ ∃ m, st.requests.get? id.toNat = some m ∧
      st' = { st with requests := st.requests.set id.toNat (mapErase m seq) } ∧
      out = [.failed id seq]) ∨
    ((st.ipCount : Int) ≤ id ∧ st' = st ∧ out = [.failed id seq]) := by
  simp only [stepPing] at h
  by_cases hlt : id < (st.ipCount : Int)
  · rw [if_pos hlt] at h
    rw [bindOk] at h
    obtain ⟨m, hm, h⟩ := h
    rw [bindOk] at h
    obtain ⟨r, hr, h⟩ := h
    rw [pureOk, Prod.ext_iff] at h
    obtain ⟨h0, hget⟩ := sliceGet_ok.mp hm
    obtain ⟨-, rfl⟩ := sliceSet_ok.mp hr
    exact .inl ⟨h0, hlt, m, hget, h.1.symm, h.2.symm⟩
  · rw [if_neg hlt, pureOk, Prod.ext_iff] at h
    exact .inr ⟨not_lt.mp hlt, h.1.symm, h.2.symm⟩

/-- A loop iteration never changes the target count or the number of rows
of the pending table and of the results array. -/
theorem stepPing_meta {st st' : CorrState} {out : List Outcome} {e : Event}
    (h : stepPing st e = .ok (st', out)) :
    st'.ipCount = st.ipCount ∧ st'.requests.length = st.requests.length ∧
      st'.results.length = st.results.length := by
  cases e with
  | request id seq now =>
      obtain ⟨m, -, -, rfl, -⟩ := stepPing_request_ok h
      simp
  | result id seq t =>
      rcases stepPing_result_ok h with ⟨-, rfl, -⟩ |
        ⟨-, -, m, -, ⟨-, rfl, -⟩ | ⟨start, row, -, -, rfl, -⟩⟩ <;> simp
  | error id seq =>
      rcases stepPing_error_ok h with ⟨-, -, m, -, rfl, -⟩ | ⟨-, rfl, -⟩ <;> simp

theorem runPing_cons_ok {st st' : CorrState} {e : Event} {es : List Event} :
    runPing st (e :: es) = .ok st' ↔
      ∃ st₁ out, stepPing st e = .ok (st₁, out) ∧ runPing st₁ es = .ok st' := by
  simp only [runPing]
  rw [bindOk]
  constructor
  · rintro ⟨⟨st₁, out⟩, h1, h2⟩
    exact ⟨st₁, out, h1, h2⟩
  · rintro ⟨st₁, out, h1, h2⟩
    exact ⟨(st₁, out), h1, h2⟩

theorem runPing_snoc {st st'' : CorrState} {es : List Event} {e : Event} :
    runPing st (es ++ [e]) = .ok st'' ↔
      ∃ st₁ out, runPing st es = .ok st₁ ∧ stepPing st₁ e = .ok (st'', out) := by
  induction es generalizing st with
  | nil =>
      rw [List.nil_append, runPing_cons_ok]
      constructor
      · rintro ⟨st₁, out, h1, h2⟩
        rw [show runPing st₁ [] = Except.ok st₁ from rfl] at h2
        injection h2 with h2
        subst h2
        exact ⟨st, out, rfl, h1⟩
      · rintro ⟨st₁, out, h1, h2⟩
        rw [show runPing st [] = Except.ok st from rfl] at h1
        injection h1 with h1
        subst h1
        exact ⟨st'', out, h2, rfl⟩
  | cons f fs ih =>
      simp only [List.cons_append, runPing_cons_ok, ih]
      constructor
      · rintro ⟨st₁, out, h1, st₂, out₂, h2, h3⟩
        exact ⟨st₂, out₂, ⟨st₁, out, h1, h2⟩, h3⟩
      · rintro ⟨st₂, out₂, ⟨st₁, out, h1, h2⟩, h3⟩
        exact ⟨st₁, out, h1, st₂, out₂, h2, h3⟩

theorem runPing_meta {st st' : CorrState} {es : List Event}
    (h : runPing st es = .ok st') :
    st'.ipCount = st.ipCount ∧ st'.requests.length = st.requests.length ∧
      st'.results.length = st.results.length := by
  induction es generalizing st with
  | nil =>
      rw [show runPing st [] = Except.ok st from rfl] at h
      injection h with h
      subst h
      exact ⟨rfl, rfl, rfl⟩
  | cons e es ih =>
      obtain ⟨st₁, out, h1, h2⟩ := runPing_cons_ok.mp h
      obtain ⟨a1, a2, a3⟩ := stepPing_meta h1
      obtain ⟨b1, b2, b3⟩ := ih h2
      exact ⟨b1.trans a1, b2.trans a2, b3.trans a3⟩

theorem lookupState_init {targets : List (String × String)} {id seq : Int} :
    lookupState (initState targets) id seq = none := by
  unfold lookupState tableLookup initState
  by_cases h0 : 0 ≤ id
  · simp only [h0, if_pos, List.get?_map]
    cases targets.get? id.toNat <;> simp [mapLookup]
  · simp [h0]

theorem tableLookup_get {tbl : List TimeMap} {id seq : Int} {m : TimeMap}
    (h0 : 0 ≤ id) (hget : tbl.get? id.toNat = some m) :
    tableLookup tbl id seq = mapLookup m seq := by
  unfold tableLookup
  rw [if_pos h0, hget]
  rfl

theorem tableLookup_set_self {tbl : List TimeMap} {id seq : Int} {x : TimeMap}
    (h0 : 0 ≤ id) (hlt : id.toNat < tbl.length) :
    tableLookup (tbl.set id.toNat x) id seq = mapLookup x seq := by
  unfold tableLookup
  rw [if_pos h0]
  have hx : (tbl.set id.toNat x).get? id.toNat = some x := by
    rw [List.get?_eq_getElem?]
    exact List.getElem?_set_eq hlt
  rw [hx]
  rfl

theorem tableLookup_set_ne {tbl : List TimeMap} {id seq : Int} {j : Nat} {x : TimeMap}
    (hj : ∀ _ : 0 ≤ id, j ≠ id.toNat) :
    tableLookup (tbl.set j x) id seq = tableLookup tbl id seq := by
  unfold tableLookup
  by_cases h0 : 0 ≤ id
  · rw [if_pos h0, if_pos h0]
    have hx : (tbl.set j x).get? id.toNat = tbl.get? id.toNat := by
      rw [List.get?_eq_getElem?, List.get?_eq_getElem?]
      exact List.getElem?_set_ne (hj h0)
    rw [hx]
  · rw [if_neg h0, if_neg h0]

theorem tableLookup_oob {tbl : List TimeMap} {id seq : Int}
    (h : id < 0 ∨ tbl.length ≤ id.toNat) :
    tableLookup tbl id seq = none := by
  unfold tableLookup
  rcases h with h | h
  · rw [if_neg (not_le.mpr h)]
  · by_cases h0 : 0 ≤ id
    · rw [if_pos h0, List.get?_eq_none.mpr h]
      rfl
    · rw [if_neg h0]

/-- Processing a new-pending notice makes its key pending with the
recorded timestamp. -/
theorem lookup_after_request_self {st st' : CorrState} {out : List Outcome}
    {id seq now : Int} (h : stepPing st (.request id seq now) = .ok (st', out)) :
    lookupState st' id seq = some now := by
  obtain ⟨m, h0, hget, rfl, -⟩ := stepPing_request_ok h
  show tableLookup _ id seq = _
  rw [tableLookup_set_self h0 (get?_some_lt hget), mapLookup_insert_self]

/-- Processing a new-pending notice for a different key leaves the
pending binding of `(id, seq)` unchanged. -/
theorem lookup_after_request_other {st st' : CorrState} {out : List Outcome}
    {id1 seq1 now id seq : Int}
    (h : stepPing st (.request id1 seq1 now) = .ok (st', out))
    (hne : ¬(id1 = id ∧ seq1 = seq)) :
    lookupState st' id seq = lookupState st id seq := by
  obtain ⟨m, h01, hget, rfl, -⟩ := stepPing_request_ok h
  show tableLookup _ id seq = tableLookup _ id seq
  by_cases hid : id1 = id
  · subst hid
    have hseq : seq1 ≠ seq := fun hs => hne ⟨rfl, hs⟩
    rw [tableLookup_set_self h01 (get?_some_lt hget), mapLookup_insert_ne hseq,
      tableLookup_get h01 hget]
  · apply tableLookup_set_ne
    intro h0
    omega

/-- Processing a reply event for an in-range key removes any pending
binding of that key (whether it matched or was unsolicited). -/
theorem lookup_after_result_self {st st' : CorrState} {out : List Outcome}
    {id seq t : Int} (h : stepPing st (.result id seq t) = .ok (st', out))
    (h0 : 0 ≤ id) (hN : id < (st.ipCount : Int)) :
    lookupState st' id seq = none := by
  rcases stepPing_result_ok h with ⟨hle, rfl, -⟩ | ⟨-, -, m, hget, hcase⟩
  · exact absurd hle (not_le.mpr hN)
  · rcases hcase with ⟨hnone, rfl, -⟩ | ⟨start, row, hsome, -, rfl, -⟩
    · show tableLookup _ id seq = none
      rw [tableLookup_get h0 hget]
      exact hnone
    · show tableLookup _ id seq = none
      rw [tableLookup_set_self h0 (get?_some_lt hget)]
      exact mapLookup_erase_self

/-- Processing a reply event for a different key leaves the pending
binding of `(id, seq)` unchanged. -/
theorem lookup_after_result_other {st st' : CorrState} {out : List Outcome}
    {id1 seq1 t id seq : Int}
    (h : stepPing st (.result id1 seq1 t) = .ok (st', out))
    (hne : ¬(id1 = id ∧ seq1 = seq)) :
    lookupState st' id seq = lookupState st id seq := by
  rcases stepPing_result_ok h with ⟨-, rfl, -⟩ | ⟨h01, -, m, hget, hcase⟩
  · rfl
  · rcases hcase with ⟨-, rfl, -⟩ | ⟨start, row, hsome, hrow, rfl, -⟩
    · rfl
    · show tableLookup _ id seq = tableLookup _ id seq
      by_cases hid : id1 = id
      · subst hid
        have hseq : seq1 ≠ seq := fun hs => hne ⟨rfl, hs⟩
        rw [tableLookup_set_self h01 (get?_some_lt hget), mapLookup_erase_ne hseq,
          tableLookup_get h01 hget]
      · apply tableLookup_set_ne
        intro h0
        omega

/-- Processing a failure event removes any pending binding of its key
(the key is unbound afterwards in every non-panicking case). -/
theorem lookup_after_error_self {st st' : CorrState} {out : List Outcome}
    {id seq : Int} (h : stepPing st (.error id seq) = .ok (st', out))
    (hlen : st.requests.length = st.ipCount) :
    lookupState st' id seq = none := by
  rcases stepPing_error_ok h with ⟨h0, hlt, m, hget, rfl, -⟩ | ⟨hle, rfl, -⟩
  · show tableLookup _ id seq = none
    rw [tableLookup_set_self h0 (get?_some_lt hget)]
    exact mapLookup_erase_self
  · show tableLookup _ id seq = none
    apply tableLookup_oob
    right
    omega

/-- Processing a failure event for a different key leaves the pending
binding of `(id, seq)` unchanged. -/
theorem lookup_after_error_other {st st' : CorrState} {out : List Outcome}
    {id1 seq1 id seq : Int}
    (h : stepPing st (.error id1 seq1) = .ok (st', out))
    (hne : ¬(id1 = id ∧ seq1 = seq)) :
    lookupState st' id seq = lookupState st id seq := by
  rcases stepPing_error_ok h with ⟨h01, -, m, hget, rfl, -⟩ | ⟨-, rfl, -⟩
  · show tableLookup _ id seq = tableLookup _ id seq
    by_cases hid : id1 = id
    · subst hid
      have hseq : seq1 ≠ seq := fun hs => hne ⟨rfl, hs⟩
      rw [tableLookup_set_self h01 (get?_some_lt hget), mapLookup_erase_ne hseq,
        tableLookup_get h01 hget]
    · apply tableLookup_set_ne
      intro h0
      omega
  · rfl

theorem insertsKey_bearsKey {e : Event} {id seq : Int}
    (h : insertsKey e id seq) : bearsKey e id seq := .inl h

theorem not_pendingChar_nil {id seq : Int} : ¬ pendingChar [] id seq := by
  rintro ⟨es₁, e, es₂, heq, -, -⟩
  have := congrArg List.length heq
  simp at this
  omega

theorem snoc_inj {α : Type} {L M : List α} {x y : α}
    (h : L ++ [x] = M ++ [y]) : L = M ∧ x = y := by
  have h' := congrArg List.reverse h
  simp only [List.reverse_append, List.reverse_singleton, List.singleton_append] at h'
  injection h' with h1 h2
  refine ⟨?_, h1⟩
  have h3 := congrArg List.reverse h2
  simpa using h3

theorem snoc_eq_split {α : Type} {L : List α} {x : α} {l₁ : List α} {e : α} {l₂ : List α}
    (h : L ++ [x] = l₁ ++ e :: l₂) :
    (l₁ = L ∧ e = x ∧ l₂ = []) ∨ ∃ l₃, l₂ = l₃ ++ [x] ∧ L = l₁ ++ e :: l₃ := by
  rcases List.eq_nil_or_concat l₂ with rfl | ⟨l₃, y, rfl⟩
  · left
    have h2 : L ++ [x] = l₁ ++ [e] := by simpa using h
    obtain ⟨hL, hx⟩ := snoc_inj h2
    exact ⟨hL.symm, hx.symm, rfl⟩
  · right
    rw [List.concat_eq_append] at h
    have h2 : L ++ [x] = (l₁ ++ e :: l₃) ++ [y] := by
      rw [h]
      simp
    obtain ⟨hL, hx⟩ := snoc_inj h2
    exact ⟨l₃, by rw [List.concat_eq_append, hx], hL⟩

theorem pendingChar_snoc_insert {es : List Event} {e : Event} {id seq : Int}
    (h : insertsKey e id seq) : pendingChar (es ++ [e]) id seq :=
  ⟨es, e, [], rfl, h, by simp⟩

theorem pendingChar_snoc_bear {es : List Event} {e : Event} {id seq : Int}
    (hb : bearsKey e id seq) (hni : ¬ insertsKey e id seq) :
    ¬ pendingChar (es ++ [e]) id seq := by
  rintro ⟨l₁, e₀, l₂, heq, hins, hclean⟩
  rcases snoc_eq_split heq with ⟨-, h2, -⟩ | ⟨l₃, h1, -⟩
  · exact hni (h2 ▸ hins)
  · exact hclean e (by rw [h1]; simp) hb

theorem pendingChar_snoc_nobear {es : List Event} {e : Event} {id seq : Int}
    (h : ¬ bearsKey e id seq) :
    pendingChar (es ++ [e]) id seq ↔ pendingChar es id seq := by
  constructor
  · rintro ⟨l₁, e₀, l₂, heq, hins, hclean⟩
    rcases snoc_eq_split heq with ⟨-, h2, -⟩ | ⟨l₃, h1, h2⟩
    · exact absurd (insertsKey_bearsKey (h2 ▸ hins)) h
    · refine ⟨l₁, e₀, l₃, h2, hins, ?_⟩
      intro e' he'
      exact hclean e' (by rw [h1]; exact List.mem_append_left _ he')
  · rintro ⟨l₁, e₀, l₂, heq, hins, hclean⟩
    refine ⟨l₁, e₀, l₂ ++ [e], by rw [heq]; simp, hins, ?_⟩
    intro e' he'
    rcases List.mem_append.mp he' with h1 | h1
    · exact hclean e' h1
    · rw [List.mem_singleton.mp h1]
      exact h

theorem bearsKey_request_iff {id1 seq1 now id seq : Int} :
    bearsKey (.request id1 seq1 now) id seq ↔ id1 = id ∧ seq1 = seq := by
  simp [bearsKey]

theorem bearsKey_result_iff {id1 seq1 t id seq : Int} :
    bearsKey (.result id1 seq1 t) id seq ↔ id1 = id ∧ seq1 = seq := by
  simp [bearsKey]

theorem bearsKey_error_iff {id1 seq1 id seq : Int} :
    bearsKey (.error id1 seq1) id seq ↔ id1 = id ∧ seq1 = seq := by
  simp [bearsKey]

/-- Characterization of the pending table along any panic-free run of the
pping.go loop from the initial state: an in-range key is pending exactly
when the processed trace contains a new-pending notice for it that no
later reply or failure event for the same key follows. -/
theorem pending_iff_char {targets : List (String × String)} {id seq : Int}
    (h0 : 0 ≤ id) (hN : id < (targets.length : Int)) :
    ∀ {es : List Event} {st : CorrState},
      runPing (initState targets) es = .ok st →
      ((lookupState st id seq).isSome ↔ pendingChar es id seq) := by
  intro es
  induction es using List.reverseRecOn with
  | nil =>
      intro st h
      rw [show runPing (initState targets) [] = Except.ok (initState targets) from rfl] at h
      injection h with h
      subst h
      rw [lookupState_init]
      exact iff_of_false (by simp) not_pendingChar_nil
  | append_singleton es e ih =>
      intro st h
      obtain ⟨st₁, out, h1, h2⟩ := runPing_snoc.mp h
      have hmeta := runPing_meta h1
      have hcount : st₁.ipCount = targets.length := by
        rw [hmeta.1]
        rfl
      have hlen : st₁.requests.length = st₁.ipCount := by
        rw [hmeta.2.1, hcount]
        simp [initState]
      have IH := ih h1
      cases e with
      | request id1 seq1 now =>
          by_cases hk : id1 = id ∧ seq1 = seq
          · obtain ⟨rfl, rfl⟩ := hk
            rw [lookup_after_request_self h2]
            exact iff_of_true rfl (pendingChar_snoc_insert ⟨now, rfl⟩)
          · rw [lookup_after_request_other h2 hk,
              pendingChar_snoc_nobear (fun hb => hk (bearsKey_request_iff.mp hb))]
            exact IH
      | result id1 seq1 t =>
          by_cases hk : id1 = id ∧ seq1 = seq
          · obtain ⟨rfl, rfl⟩ := hk
            rw [lookup_after_result_self h2 h0 (by rw [hcount]; exact hN)]
            refine iff_of_false (by simp) (pendingChar_snoc_bear ?_ ?_)
            · exact .inr (.inl ⟨t, rfl⟩)
            · rintro ⟨n, hc⟩
              exact Event.noConfusion hc
          · rw [lookup_after_result_other h2 hk,
              pendingChar_snoc_nobear (fun hb => hk (bearsKey_result_iff.mp hb))]
            exact IH
      | error id1 seq1 =>
          by_cases hk : id1 = id ∧ seq1 = seq
          · obtain ⟨rfl, rfl⟩ := hk
            rw [lookup_after_error_self h2 hlen]
            refine iff_of_false (by simp) (pendingChar_snoc_bear ?_ ?_)
            · exact .inr (.inr rfl)
            · rintro ⟨n, hc⟩
              exact Event.noConfusion hc
          · rw [lookup_after_error_other h2 hk,
              pendingChar_snoc_nobear (fun hb => hk (bearsKey_error_iff.mp hb))]
            exact IH

/-- Evaluation of the loop body on a reply event that matches a pending
entry: the entry is removed and the sample recorded. -/
theorem stepPing_result_matched_eq {st : CorrState} {id seq t m start row : _}
    (h0 : 0 ≤ id) (hN : id < (st.ipCount : Int))
    (hget : st.requests.get? id.toNat = some m)
    (hlk : mapLookup m seq = some start)
    (hrow : st.results.get? id.toNat = some row) :
    stepPing st (.result id seq t) =
      .ok ({ st with
             requests := st.requests.set id.toNat (mapErase m seq)
             results := st.results.set id.toNat (row ++ [.sample (t - start)]) },
           [.matched id seq (t - start)]) := by
  have hgs : sliceGet st.requests id = .ok m := sliceGet_ok.mpr ⟨h0, hget⟩
  have hrs : sliceGet st.results id = .ok row := sliceGet_ok.mpr ⟨h0, hrow⟩
  have hss : sliceSet st.requests id (mapErase m seq) =
      .ok (st.requests.set id.toNat (mapErase m seq)) :=
    sliceSet_ok.mpr ⟨⟨h0, get?_some_lt hget⟩, rfl⟩
  have hss2 : sliceSet st.results id (row ++ [.sample (t - start)]) =
      .ok (st.results.set id.toNat (row ++ [.sample (t - start)])) :=
    sliceSet_ok.mpr ⟨⟨h0, get?_some_lt hrow⟩, rfl⟩
  simp only [stepPing, if_neg (not_le.mpr hN), hgs, okBind, hlk, hss, hrs, hss2]
  rfl

/-- The loop emits a `Matched` outcome for the in-range key `(id, seq)` on
a reply event exactly when the key is pending in the current state. -/
theorem matched_iff_pending {st : CorrState} {id seq t : Int}
    (h0 : 0 ≤ id) (hN : id < (st.ipCount : Int))
    (hlen : st.requests.length = st.ipCount)
    (hlen2 : st.results.length = st.ipCount) :
    (∃ st' out d, stepPing st (.result id seq t) = .ok (st', out) ∧
        Outcome.matched id seq d ∈ out) ↔
      (lookupState st id seq).isSome := by
  constructor
  · rintro ⟨st', out, d, hstep, hmem⟩
    rcases stepPing_result_ok hstep with ⟨-, -, rfl⟩ | ⟨-, -, m, hget, hcase⟩
    · simp at hmem
    · rcases hcase with ⟨-, -, rfl⟩ | ⟨start, row, hsome, -, -, rfl⟩
      · simp at hmem
      · rw [show lookupState st id seq = tableLookup st.requests id seq from rfl,
          tableLookup_get h0 hget, hsome]
        rfl
  · intro hs
    obtain ⟨m, hget⟩ : ∃ m, st.requests.get? id.toNat = some m := by
      cases hg : st.requests.get? id.toNat with
      | none =>
          rw [List.get?_eq_none] at hg
          omega
      | some m => exact ⟨m, rfl⟩
    have hm : (mapLookup m seq).isSome := by
      rw [show lookupState st id seq = tableLookup st.requests id seq from rfl,
        tableLookup_get h0 hget] at hs
      exact hs
    obtain ⟨start, hsome⟩ := Option.isSome_iff_exists.mp hm
    obtain ⟨row, hrow⟩ : ∃ row, st.results.get? id.toNat = some row := by
      cases hg : st.results.get? id.toNat with
      | none =>
          rw [List.get?_eq_none] at hg
          omega
      | some row => exact ⟨row, rfl⟩
    exact ⟨_, _, t - start, stepPing_result_matched_eq h0 hN hget hsome hrow, by simp⟩

/-- One loop iteration preserves key-uniqueness of every row of the
pending table. -/
theorem stepPing_nodup {st st' : CorrState} {out : List Outcome} {e : Event}
    (h : stepPing st e = .ok (st', out))
    (hn : ∀ m ∈ st.requests, (m.map Prod.fst).Nodup) :
    ∀ m ∈ st'.requests, (m.map Prod.fst).Nodup := by
  cases e with
  | request id seq now =>
      obtain ⟨m, -, hget, rfl, -⟩ := stepPing_request_ok h
      intro m' hm'
      rcases List.mem_or_eq_of_mem_set hm' with hmem | rfl
      · exact hn m' hmem
      · exact keys_nodup_insert (hn m (List.get?_mem hget))
  | result id seq t =>
      rcases stepPing_result_ok h with ⟨-, rfl, -⟩ | ⟨-, -, m, hget, hcase⟩
      · exact hn
      · rcases hcase with ⟨-, rfl, -⟩ | ⟨start, row, -, -, rfl, -⟩
        · exact hn
        · intro m' hm'
          rcases List.mem_or_eq_of_mem_set hm' with hmem | rfl
          · exact hn m' hmem
          · exact keys_nodup_erase (hn m (List.get?_mem hget))
  | error id seq =>
      rcases stepPing_error_ok h with ⟨-, -, m, hget, rfl, -⟩ | ⟨-, rfl, -⟩
      · intro m' hm'
        rcases List.mem_or_eq_of_mem_set hm' with hmem | rfl
        · exact hn m' hmem
        · exact keys_nodup_erase (hn m (List.get?_mem hget))
      · exact hn

/-- Key-uniqueness of every row of the pending table is an invariant of
every panic-free run from the initial state. -/
theorem runPing_nodup {targets : List (String × String)} {es : List Event}
    {st : CorrState} (h : runPing (initState targets) es = .ok st) :
    ∀ m ∈ st.requests, (m.map Prod.fst).Nodup := by
  suffices H : ∀ es (st₀ st : CorrState), runPing st₀ es = .ok st →
      (∀ m ∈ st₀.requests, (m.map Prod.fst).Nodup) →
      ∀ m ∈ st.requests, (m.map Prod.fst).Nodup by
    refine H es _ st h ?_
    intro m hm
    simp only [initState, List.mem_map] at hm
    obtain ⟨-, -, hm⟩ := hm
    rw [← hm]
    exact List.nodup_nil
  intro es
  induction es with
  | nil =>
      intro st₀ st h hn
      rw [show runPing st₀ [] = Except.ok st₀ from rfl] at h
      injection h with h
      subst h
      exact hn
  | cons e es ih =>
      intro st₀ st h hn
      obtain ⟨st₁, out, h1, h2⟩ := runPing_cons_ok.mp h
      exact ih st₁ st h2 (stepPing_nodup h1 hn)

theorem mapLookup_mem {m : TimeMap} {k v : Int}
    (h : mapLookup m k = some v) : (k, v) ∈ m := by
  induction m with
  | nil => exact Option.noConfusion h
  | cons p rest ih =>
      obtain ⟨a, b⟩ := p
      rw [mapLookup] at h
      by_cases hp : a = k
      · rw [if_pos hp] at h
        injection h with h
        subst hp
        subst h
        exact List.mem_cons_self _ _
      · rw [if_neg hp] at h
        exact List.mem_cons_of_mem _ (ih h)

/-- The pping.go loop rejects a reply event failing the `res.id >= ipCount`
check without touching any state (lines 149-152). -/
theorem stepPing_result_reject {st : CorrState} {id seq t : Int}
    (hle : (st.ipCount : Int) ≤ id) :
    stepPing st (.result id seq t) = .ok (st, [.invalidId id]) := by
  simp only [stepPing, if_pos hle]
  rfl

/-- The part_000 loop rejects a reply event whose id is outside `[0, N)`
without touching any state (lines 193-196). -/
theorem step000_result_reject {st : StatState} {id seq t : Int}
    (h : id < 0 ∨ (st.ipCount : Int) ≤ id) :
    step000 st (.result id seq t) = .ok (st, [.invalidId id]) := by
  simp only [step000, if_pos h]
  rfl

/-- The part_000 loop only reports a failure event whose id is outside
`[0, N)`; the pending table is not indexed (lines 238-243). -/
theorem step000_error_reject {st : StatState} {id seq : Int}
    (h : id < 0 ∨ (st.ipCount : Int) ≤ id) :
    step000 st (.error id seq) = .ok (st, [.failed id seq]) := by
  have hg : ¬(0 ≤ id ∧ id < (st.ipCount : Int)) := by omega
  simp only [step000, if_neg hg]
  rfl

/-- The part_000 loop reports an in-range reply with no pending entry and
changes nothing: the whole state, including all aggregates, is returned
untouched (lines 198-203). -/
theorem step000_result_unsolicited {st : StatState} {id seq t : Int}
    (h0 : 0 ≤ id) (hN : id < (st.ipCount : Int))
    (hlen : st.requests.length = st.ipCount)
    (hlk : lookup000 st id seq = none) :
    step000 st (.result id seq t) = .ok (st, [.unsolicited id seq]) := by
  have hg : ¬(id < 0 ∨ (st.ipCount : Int) ≤ id) := by omega
  obtain ⟨m, hget⟩ : ∃ m, st.requests.get? id.toNat = some m := by
    cases hg2 : st.requests.get? id.toNat with
    | none =>
        rw [List.get?_eq_none] at hg2
        omega
    | some m => exact ⟨m, rfl⟩
  have hmlk : mapLookup m seq = none := by
    rw [show lookup000 st id seq = tableLookup st.requests id seq from rfl,
      tableLookup_get h0 hget] at hlk
    exact hlk
  have hgs : sliceGet st.requests id = .ok m := sliceGet_ok.mpr ⟨h0, hget⟩
  simp only [step000, if_neg hg, hgs, okBind, hmlk]
  rfl

/-- On a reply event, every `Matched` outcome's duration is the event's
arrival timestamp minus a timestamp stored in the pending table, hence
non-negative whenever the arrival timestamp dominates the stored ones. -/
theorem matched_dur_nonneg {st st' : CorrState} {out : List Outcome}
    {id seq endTime d : Int}
    (hmono : timesLE st endTime)
    (hstep : stepPing st (.result id seq endTime) = .ok (st', out))
    (hmem : Outcome.matched id seq d ∈ out) : 0 ≤ d := by
  rcases stepPing_result_ok hstep with ⟨-, -, rfl⟩ | ⟨h0, -, m, hget, hcase⟩
  · simp at hmem
  · rcases hcase with ⟨-, -, rfl⟩ | ⟨start, row, hsome, -, -, rfl⟩
    · simp at hmem
    · simp only [List.mem_singleton, Outcome.matched.injEq] at hmem
      obtain ⟨-, -, rfl⟩ := hmem
      have hst : start ≤ endTime :=
        hmono m (List.get?_mem hget) (seq, start) (mapLookup_mem hsome)
      omega

/-- The `k`-th dispatch of the `Pinger` loop started at sweep index `i`
targets `(i + k) mod n` with sequence `(i + k) div n`. -/
theorem Pinger_get (n : Nat) :
    ∀ (steps i k : Nat), k < steps →
      (Pinger n i steps).get? k = some ((i + k) % n, (i + k) / n) := by
  intro steps
  induction steps with
  | zero =>
      intro i k hk
      exact absurd hk (Nat.not_lt_zero k)
  | succ s ih =>
      intro i k hk
      cases k with
      | zero => simp [Pinger]
      | succ k' =>
          rw [Pinger]
          show (Pinger n (i + 1) s).get? k' = _
          rw [ih (i + 1) k' (by omega)]
          rw [show i + 1 + k' = i + (k' + 1) from by omega]

end PPing

/-! ## The claims -/

namespace PPing

/-- C1 (amended): reply events failing the `res.id >= ipCount` check are
rejected and reported by the pping.go correlator with no state change; the
part_000 correlator rejects every reply or failure event whose id lies
outside `[0, N)` with no state change and without indexing any array.
(The unamended claim fails for the pping.go correlator on negative ids,
see the counterexample.) -/
theorem c1_bounds_amended :
    (∀ (st : CorrState) (id seq t : Int), (st.ipCount : Int) ≤ id →
        stepPing st (.result id seq t) = .ok (st, [.invalidId id])) ∧
    (∀ (st : StatState) (id seq t : Int), id < 0 ∨ (st.ipCount : Int) ≤ id →
        step000 st (.result id seq t) = .ok (st, [.invalidId id])) ∧
    (∀ (st : StatState) (id seq : Int), id < 0 ∨ (st.ipCount : Int) ≤ id →
        step000 st (.error id seq) = .ok (st, [.failed id seq])) :=
  ⟨fun _ _ _ _ h => stepPing_result_reject h,
   fun _ _ _ _ h => step000_result_reject h,
   fun _ _ _ h => step000_error_reject h⟩

theorem c1_bounds_amended_witness :
    stepPing ⟨1, [[]], [[.label "u", .label "a"]]⟩ (.result 2 0 7)
        = .ok (⟨1, [[]], [[.label "u", .label "a"]]⟩, [.invalidId 2]) ∧
    step000 (init000 [("u", "a")]) (.result (-1) 0 7)
        = .ok (init000 [("u", "a")], [.invalidId (-1)]) ∧
    step000 (init000 [("u", "a")]) (.error (-1) 0)
        = .ok (init000 [("u", "a")], [.failed (-1) 0]) :=
  ⟨c1_bounds_amended.1 _ 2 0 7 (by decide),
   c1_bounds_amended.2.1 _ (-1) 0 7 (.inl (by decide)),
   c1_bounds_amended.2.2 _ (-1) 0 (.inl (by decide))⟩

/-- C1 counterexample: the pping.go correlator loop does not reject a
negative target id — with one live target, a reply event and a failure
event carrying id `-1` both reach the slice index `requests[id]` and hit
the out-of-bounds runtime fault instead of being rejected and reported. -/
theorem c1_counterexample :
    stepPing ⟨1, [[]], [[.label "u", .label "a"]]⟩ (.result (-1) 0 0)
        = .error .indexOutOfRange ∧
    stepPing ⟨1, [[]], [[.label "u", .label "a"]]⟩ (.error (-1) 0)
        = .error .indexOutOfRange :=
  ⟨rfl, rfl⟩

/-- C2 (amended): a datagram whose bytes fail ICMP parsing is logged and
terminates the receive loop — exactly the treatment of a socket-level read
error — rather than being discarded with the loop continuing; well-formed
non-echo-reply datagrams are the ones logged and discarded with the loop
continuing. -/
theorem c2_parse_error_terminates :
    (∀ (t : Int) (rest : List Inbound),
        Listener (.dgram t none :: rest) = [.logParseErr]) ∧
    (∀ rest : List Inbound, Listener (.readErr :: rest) = [.logReadErr]) ∧
    (∀ (t ty : Int) (rest : List Inbound), ty ≠ 0 →
        Listener (.dgram t (some (ty, .other)) :: rest)
          = .logNonEcho ty :: Listener rest) := by
  refine ⟨fun _ _ => rfl, fun _ => rfl, ?_⟩
  intro t ty rest hty
  rw [Listener, if_neg hty]
  rfl

theorem c2_parse_error_terminates_witness :
    Listener [.dgram 7 (some (3, .other)), .dgram 9 (some (0, .echo 1 2))]
      = [.logNonEcho 3, .emit 1 2 9] := by
  rw [c2_parse_error_terminates.2.2 7 3 [.dgram 9 (some (0, .echo 1 2))] (by decide)]
  rfl

/-- C2 counterexample: after a malformed datagram the receive loop stops —
a subsequent perfectly valid echo reply is never emitted, contradicting
"the receive loop continues with the next datagram". -/
theorem c2_counterexample :
    Listener [.dgram 7 none, .dgram 9 (some (0, .echo 1 2))] = [.logParseErr] ∧
    LEvent.emit 1 2 9 ∉ Listener [.dgram 7 none, .dgram 9 (some (0, .echo 1 2))] :=
  ⟨rfl, by decide⟩

/-- C3: along every panic-free run of the correlator loop from its initial
state, every row of the pending table binds each `(target, sequence)` key
at most once; and a key resolved by a matched reply or cleared by a
failure event is absent from the table immediately afterwards. -/
theorem c3_pending_unique_resolved {targets : List (String × String)}
    {es : List Event} {st : CorrState}
    (h : runPing (initState targets) es = .ok st) :
    (∀ m ∈ st.requests, (m.map Prod.fst).Nodup) ∧
    (∀ (id seq t d : Int) (st' : CorrState) (out : List Outcome),
        stepPing st (.result id seq t) = .ok (st', out) →
        Outcome.matched id seq d ∈ out → lookupState st' id seq = none) ∧
    (∀ (id seq : Int) (st' : CorrState) (out : List Outcome),
        stepPing st (.error id seq) = .ok (st', out) →
        lookupState st' id seq = none) := by
  refine ⟨runPing_nodup h, ?_, ?_⟩
  · intro id seq t d st' out hstep hmem
    rcases stepPing_result_ok hstep with ⟨-, -, hout⟩ | ⟨h0, hN, m, hget, hcase⟩
    · subst hout
      simp at hmem
    · exact lookup_after_result_self hstep h0 hN
  · intro id seq st' out hstep
    have hmeta := runPing_meta h
    have hlen : st.requests.length = st.ipCount := by
      rw [hmeta.2.1, hmeta.1]
      simp [initState]
    exact lookup_after_error_self hstep hlen

theorem c3_witness :
    lookupState ⟨1, [[]], [[Cell.label "u", Cell.label "a", Cell.sample 4]]⟩ 0 0
      = none := by
  have h : runPing (initState [("u", "a")]) [.request 0 0 5]
      = .ok ⟨1, [[(0, 5)]], [[.label "u", .label "a"]]⟩ := rfl
  have hstep : stepPing (⟨1, [[(0, 5)]], [[.label "u", .label "a"]]⟩ : CorrState)
      (.result 0 0 9)
      = .ok (⟨1, [[]], [[.label "u", .label "a", .sample 4]]⟩, [.matched 0 0 4]) := rfl
  exact (c3_pending_unique_resolved h).2.1 0 0 9 4 _ _ hstep (by decide)

/-- C4: after any panic-free run of the correlator loop from its initial
state, a reply event for the in-range key `(id, seq)` produces a `Matched`
outcome exactly when the processed trace contains a new-pending notice for
the key with no later reply or failure event for that key (insertion not
yet resolved); and a reply whose key has no pending entry never produces a
`Matched` outcome. -/
theorem c4_matched_iff {targets : List (String × String)} {es : List Event}
    {st : CorrState} {id seq t : Int}
    (h : runPing (initState targets) es = .ok st)
    (h0 : 0 ≤ id) (hN : id < (targets.length : Int)) :
    ((∃ st' out d, stepPing st (.result id seq t) = .ok (st', out) ∧
        Outcome.matched id seq d ∈ out) ↔ pendingChar es id seq) ∧
    (lookupState st id seq = none →
      ∀ (st' : CorrState) (out : List Outcome) (d : Int),
        stepPing st (.result id seq t) = .ok (st', out) →
        Outcome.matched id seq d ∉ out) := by
  have hmeta := runPing_meta h
  have hcount : st.ipCount = targets.length := by
    rw [hmeta.1]
    rfl
  have hlen : st.requests.length = st.ipCount := by
    rw [hmeta.2.1, hcount]
    simp [initState]
  have hlen2 : st.results.length = st.ipCount := by
    rw [hmeta.2.2, hcount]
    simp [initState]
  have hNst : id < (st.ipCount : Int) := by
    rw [hcount]
    exact hN
  constructor
  · rw [matched_iff_pending h0 hNst hlen hlen2]
    exact pending_iff_char h0 hN h
  · intro hnone st' out d hstep hmem
    have hs := (matched_iff_pending h0 hNst hlen hlen2).mp ⟨st', out, d, hstep, hmem⟩
    rw [hnone] at hs
    exact Bool.noConfusion hs

theorem c4_witness : pendingChar [Event.request 0 0 5] 0 0 := by
  have h : runPing (initState [("u", "a")]) [.request 0 0 5]
      = .ok ⟨1, [[(0, 5)]], [[.label "u", .label "a"]]⟩ := rfl
  have hiff := @c4_matched_iff [("u", "a")] [Event.request 0 0 5]
    ⟨1, [[(0, 5)]], [[.label "u", .label "a"]]⟩ 0 0 9 h (by decide) (by decide)
  exact hiff.1.mp
    ⟨⟨1, [[]], [[.label "u", .label "a", .sample 4]]⟩, [.matched 0 0 4], 4, rfl, by decide⟩

/-- C5: for `N ≥ 1` targets, the `k`-th probe dispatched by the scheduler
loop (sweep index starting at 0) targets `k mod N` with sequence
`k div N`; for `N = 2`, the first four dispatches are
`(0,0), (1,0), (0,1), (1,1)`. -/
theorem c5_round_robin (N steps k : Nat) (_hN : 1 ≤ N) (hk : k < steps) :
    (Pinger N 0 steps).get? k = some (k % N, k / N) ∧
    Pinger 2 0 4 = [(0, 0), (1, 0), (0, 1), (1, 1)] := by
  refine ⟨?_, rfl⟩
  have h := Pinger_get N steps 0 k hk
  simpa using h

theorem c5_witness : (Pinger 2 0 4).get? 3 = some (1, 1) := by
  have h := (c5_round_robin 2 4 3 (by decide) (by decide)).1
  simpa using h

/-- C6 (code bug): the final summary's reported total is the sum of the
lengths of the persisted rows, which counts the two label cells (url and
address) of every row — with one target and one matched sample the code
reports a total of 3 where the number of matched samples (persisted cells
minus label columns) is 1.  The rows the summary sums and the rows handed
to the CSV writer are the same `results` value. -/
theorem c6_summary_counts_labels :
    runPing (initState [("u", "a")]) [.request 0 0 5, .result 0 0 9]
        = .ok ⟨1, [[]], [[.label "u", .label "a", .sample 4]]⟩ ∧
    (quitReport ⟨1, [[]], [[.label "u", .label "a", .sample 4]]⟩).1 = 3 ∧
    sampleCount (quitReport ⟨1, [[]], [[.label "u", .label "a", .sample 4]]⟩).2 = 1 ∧
    (quitReport ⟨1, [[]], [[.label "u", .label "a", .sample 4]]⟩).1 ≠
      sampleCount (quitReport ⟨1, [[]], [[.label "u", .label "a", .sample 4]]⟩).2 :=
  ⟨rfl, rfl, rfl, by decide⟩

/-- C7: in every action trace of the probe sender `Ping`, the new-pending
notice for the probe's key is sent strictly before the probe's bytes are
written to the socket: any decomposition placing the wire send at some
position has the notice among the earlier actions. -/
theorem c7_notify_before_send (id seq : Int) (marshal writeTo : Option Nat)
    (l₁ l₂ : List PingAction)
    (h : Ping id seq marshal writeTo = l₁ ++ .wireSend id seq :: l₂) :
    PingAction.notifyRequest id seq ∈ l₁ := by
  cases marshal with
  | none =>
      simp only [Ping] at h
      have hmem : PingAction.wireSend id seq ∈ [PingAction.notifyError id seq] := by
        rw [h]
        simp
      simp at hmem
  | some len =>
      simp only [Ping] at h
      cases l₁ with
      | nil =>
          rw [List.nil_append] at h
          injection h with h1 h2
          exact PingAction.noConfusion h1
      | cons a l₁' =>
          rw [List.cons_append] at h
          injection h with h1 h2
          rw [← h1]
          exact List.mem_cons_self _ _

theorem c7_witness : PingAction.notifyRequest 0 0 ∈ [PingAction.notifyRequest 0 0] :=
  c7_notify_before_send 0 0 (some 5) (some 5) [.notifyRequest 0 0] [] rfl

/-- C8 (amended): every `Matched` outcome's round-trip duration is
non-negative provided the reply's arrival timestamp is at least every
send timestamp stored in the pending table — in particular at least the
matched entry's `sent_at`.  (Unconditionally the claim fails: a reply
whose arrival timestamp was taken before the notice was stamped matches
with a negative duration, see the counterexample.) -/
theorem c8_nonneg_amended {st st' : CorrState} {out : List Outcome}
    {id seq endTime d : Int}
    (hmono : timesLE st endTime)
    (hstep : stepPing st (.result id seq endTime) = .ok (st', out))
    (hmem : Outcome.matched id seq d ∈ out) : 0 ≤ d :=
  matched_dur_nonneg hmono hstep hmem

theorem c8_witness : (0 : Int) ≤ 4 :=
  @c8_nonneg_amended ⟨1, [[(0, 5)]], [[.label "u", .label "a"]]⟩
    ⟨1, [[]], [[.label "u", .label "a", .sample 4]]⟩ [.matched 0 0 4]
    0 0 9 4
    (by
      intro m hm p hp
      rw [List.mem_singleton] at hm
      subst hm
      rw [List.mem_singleton] at hp
      subst hp
      decide)
    rfl (by decide)

/-- C8 counterexample: a new-pending notice stamped at time 5 followed by
a reply event whose recorded arrival timestamp is 3 (taken before the
notice was processed — possible because the listener timestamps a datagram
when it is read, not when the correlator consumes it) yields a `Matched`
outcome with round-trip duration `-2 < 0`. -/
theorem c8_counterexample :
    (runPingOut (initState [("u", "a")]) [.request 0 0 5, .result 0 0 3]).map Prod.snd
        = .ok [.matched 0 0 (-2)] ∧
    ((-2 : Int) < 0) :=
  ⟨rfl, by decide⟩

/-- C9: an in-range reply with no pending entry (unsolicited — duplicate
or very late) leaves the part_000 correlator state — including the
per-target `count`/`min`/`max`/`sum` aggregates and the result rows —
entirely unchanged, does not fault, and is reported as unsolicited. -/
theorem c9_unsolicited_no_mutation {st : StatState} {id seq t : Int}
    (h0 : 0 ≤ id) (hN : id < (st.ipCount : Int))
    (hlen : st.requests.length = st.ipCount)
    (hlk : lookup000 st id seq = none) :
    step000 st (.result id seq t) = .ok (st, [.unsolicited id seq]) :=
  step000_result_unsolicited h0 hN hlen hlk

theorem c9_witness :
    step000 (init000 [("u", "a")]) (.result 0 7 9)
        = .ok (init000 [("u", "a")], [.unsolicited 0 7]) :=
  c9_unsolicited_no_mutation (by decide) (by decide) (by decide) (by decide)

/-- C10: a datagram that parses as an ICMP echo-reply (type 0) message
whose body is not an `*icmp.Echo` payload is discarded silently: the
receive loop emits no reply event, logs nothing, and behaves exactly as if
it continued directly with the remaining datagrams. -/
theorem c10_nonecho_body_silent (endTime : Int) (rest : List Inbound) :
    Listener (.dgram endTime (some (0, .other)) :: rest) = Listener rest := rfl

end PPing
